import Mathlib

/-!
Verification development for the geometry-prover predicate module
(src/newclid/predicates/equal_ratios.py) and the proof-trace layering tool
(src/newclid/visualization/vis_proof.py).

The Python code is shallowly embedded: pure functions become Lean functions,
the mutable closure table becomes an explicit trace of its insertion calls,
and Python `None` results become `Option`.  Code of the repository that the
two files call but that is not part of the sources (the closure table in
algebraic_reasoning/tables.py, the Statement and Dependency classes, the
EqAngle predicate, the numeric validator) is modelled from the spec, as
documented at each such definition.
-/

/-- Python point identifiers (the argument tokens of a statement) are strings. -/
abbrev PointName := String

/-- Modelled from the spec: the total order over point identifiers used by
canonicalization (the base-class method `Predicate.custom_key` is not under
src/; the spec only requires "a total order over point identifiers").  We key
an identifier by its character list, ordered lexicographically. -/
def custom_key (p : PointName) : List Char := p.data

/-- The sort key Python attaches to one argument pair on line 150 of
equal_ratios.py: `[cls.custom_key(arg) for arg in pair]`, a two-element list
of keys compared lexicographically. -/
def pair_key (x : PointName × PointName) : List (List Char) :=
  [custom_key x.1, custom_key x.2]

/-- The ascending comparison realized by Python's stable `sorted` on the three
argument pairs: compare the pairs' key lists. -/
def pair_le (x y : PointName × PointName) : Prop :=
  pair_key x ≤ pair_key y

instance : DecidableRel pair_le := fun x y => by
  unfold pair_le; infer_instance

instance : IsTotal (PointName × PointName) pair_le :=
  ⟨fun x y => le_total (pair_key x) (pair_key y)⟩

instance : IsTrans (PointName × PointName) pair_le :=
  ⟨fun _ _ _ h1 h2 => le_trans h1 h2⟩

instance : IsAntisymm (PointName × PointName) pair_le :=
  ⟨fun x y h1 h2 => by
    have hk : pair_key x = pair_key y := le_antisymm h1 h2
    simp only [pair_key, custom_key, List.cons.injEq, and_true] at hk
    exact Prod.ext (String.ext hk.1) (String.ext hk.2)⟩

/-- The key Python's `min` uses on line 152 of equal_ratios.py:
`[[custom_key(arg[0]), custom_key(arg[1])] for arg in pair]` applied to a whole
candidate ordering (a list of pairs), compared lexicographically. -/
def groups_key (l : List (PointName × PointName)) : List (List (List Char)) :=
  l.map pair_key

/-- Python's `min(u, v, key=groups_key)`: the second candidate is chosen
exactly when its key is strictly smaller (on a tie `min` keeps the first). -/
def min_groups (u v : List (PointName × PointName)) : List (PointName × PointName) :=
  if groups_key v < groups_key u then v else u

/-- `sum(pairs, ())`: concatenate the chosen ordering's pairs into the flat
argument tuple. -/
def flatten_pairs (l : List (PointName × PointName)) : List PointName :=
  l.flatMap (fun p => [p.1, p.2])

namespace EqRatio3

/-- `EqRatio3.preparse` (equal_ratios.py lines 143-152).  Arguments
`(a, b, c, d, m, n)`; rejects (returns `none`) when either designated point
group has fewer than 3 distinct points, otherwise sorts the three pairs and
their simultaneous reversals stably by key and returns the flattening of the
lexicographically smaller of the two sorted candidate orderings.  Python's
`sorted` is a stable sort, as is `List.insertionSort`. -/
def preparse (a b c d m n : PointName) : Option (List PointName) :=
  if [a, c, m].dedup.length < 3 ∨ [b, d, n].dedup.length < 3 then none
  else
    let groups : List (PointName × PointName) := [(a, b), (c, d), (m, n)]
    let groups1 : List (PointName × PointName) := [(b, a), (d, c), (n, m)]
    let sorted_groups := List.insertionSort pair_le groups
    let sorted_groups1 := List.insertionSort pair_le groups1
    some (flatten_pairs (min_groups sorted_groups sorted_groups1))

end EqRatio3

/-- Predicate names (the `NAME` class attributes). -/
def EqRatioNAME : String := "eqratio"

def EqRatio3NAME : String := "eqratio3"

/-- Modelled from the spec: a statement is a predicate name plus an ordered
tuple of point identifiers (statement.py is not under src/). -/
structure Statement where
  pred : String
  args : List PointName
deriving DecidableEq

/-- `statement.with_new(Predicate, args)`: the same statement object rebuilt
with a new predicate and arguments (modelled from the spec's description of
compound-predicate decomposition; statement.py is not under src/). -/
def Statement.with_new (_s : Statement) (pred : String) (args : List PointName) :
    Statement :=
  ⟨pred, args⟩

/-- The rule tag `Ratio_Chase` imported from algebraic_reasoning/tables.py
(not under src/); only its identity matters here. -/
def Ratio_Chase : String := "Ratio Chase"

/-- Modelled from the spec: the symbolic length quantity
`table.get_length(p, q)` of the closure table (tables.py is not under src/),
kept as a free term over the two point names as passed. -/
structure Length where
  p : PointName
  q : PointName
deriving DecidableEq

/-- Modelled from the spec: the linear expression
`table.get_equal_difference_up_to(l1, l2, l3, l4)` ("relation(l1,l2) equals
relation(l3,l4)"), kept as a free term over its four quantities. -/
structure SumCV where
  l1 : Length
  l2 : Length
  l3 : Length
  l4 : Length
deriving DecidableEq

/-- Modelled from the spec: a dependency (justification-graph fact) owns a
statement, a rule/reason tag and the ordered antecedent statements
(dependency.py is not under src/).  `Dependency.mk` is the constructor the
source calls. -/
structure Dependency where
  statement : Statement
  reason : String
  why : List Statement
deriving DecidableEq

/-- `dep.with_new(statement)`: the same dependency with its statement
replaced (modelled from the spec; dependency.py is not under src/). -/
def Dependency.with_new (d : Dependency) (s : Statement) : Dependency :=
  ⟨s, d.reason, d.why⟩

/-- The closure table, abstracted to the ordered trace of its `add_expr`
insertions (tables.py is not under src/; the spec's decomposition-consistency
property is about the sequence of insertions the table receives, so two runs
issuing the same trace leave the table indistinguishable). -/
abbrev Table := List (SumCV × Dependency)

/-- `table.add_expr(eq, dep)` recorded on the trace. -/
def Table.add_expr (t : Table) (e : SumCV) (d : Dependency) : Table :=
  t ++ [(e, d)]

/-- `reshape(args, 4)` from newclid.tools (not under src/): successive
groups of four arguments, as iterated by `check_numerical`. -/
def reshape4 {α : Type} : List α → List (α × α × α × α)
  | a :: b :: c :: d :: rest => (a, b, c, d) :: reshape4 rest
  | _ => []

/-- The numeric measurement capability `check_numerical` consumes, an
external collaborator per the spec (Python evaluates it on floating-point
coordinates, which are out of scope): a value type with the distance
measurement, division, and the tolerance comparison `close_enough`. -/
structure NumModel (V : Type) where
  distance : PointName → PointName → V
  div : V → V → V
  close_enough : V → V → Bool

namespace EqRatio

/-- The expressions `EqRatio._prep_ar` builds (equal_ratios.py lines 50-66):
for each successive group of four points beyond the first, the expression
equating that group's length relation with the first group's.  The table
component of the Python return value is the ambient trace.  With fewer than
four points the while loop never runs; Python raises IndexError when the
argument count is not a multiple of four, which no canonical statement has. -/
def prep_ar_loop (l12 l34 : Length) : List PointName → List SumCV
  | pi :: pj :: pk :: pl :: rest =>
      SumCV.mk l12 l34 (Length.mk pi pj) (Length.mk pk pl) :: prep_ar_loop l12 l34 rest
  | _ => []

def _prep_ar (args : List PointName) : List SumCV :=
  match args with
  | p0 :: p1 :: p2 :: p3 :: rest =>
      prep_ar_loop (Length.mk p0 p1) (Length.mk p2 p3) rest
  | _ => []

/-- `EqRatio.add` (lines 68-72): insert every prepared expression into the
closure table, justified by `dep`. -/
def add (dep : Dependency) (t : Table) : Table :=
  (_prep_ar dep.statement.args).foldl (fun acc e => acc.add_expr e dep) t

/-- `EqRatio.check` (lines 84-87), parametrized by the closure table's
derivability query `expr_delta` (tables.py is not under src/). -/
def check (expr_delta : SumCV → Bool) (s : Statement) : Bool :=
  (_prep_ar s.args).all expr_delta

/-- `EqRatio.why` (lines 74-82), parametrized by the closure table's
justification extraction `table.why` (tables.py is not under src/): gather the
facts the table cites for each expression, in order, and build a new
dependency carrying the queried statement, the `Ratio_Chase` tag and the
gathered facts' statements. -/
def why (table_why : SumCV → List Dependency) (s : Statement) : Dependency :=
  Dependency.mk s Ratio_Chase
    (((_prep_ar s.args).flatMap table_why).map Dependency.statement)

/-- The accumulator loop of `EqRatio.check_numerical` (lines 36-48): `ratio`
starts as Python `None`; each group's ratio is compared against the previous
group's, and the accumulator is then overwritten with the current ratio. -/
def check_numerical_loop {V : Type} (M : NumModel V) :
    Option V → List (PointName × PointName × PointName × PointName) → Bool
  | _, [] => true
  | acc, (a, b, c, d) :: rest =>
    let r := M.div (M.distance a b) (M.distance c d)
    match acc with
    | some prev =>
        if !(M.close_enough prev r) then false else check_numerical_loop M (some r) rest
    | none => check_numerical_loop M (some r) rest

/-- `EqRatio.check_numerical` (lines 36-48).  The body only reads the points'
numeric coordinates; the closure-table trace (reachable from the statement in
Python) is threaded unchanged so that the absence of writes is part of the
embedded signature. -/
def check_numerical {V : Type} (M : NumModel V) (s : Statement) (t : Table) :
    Bool × Table :=
  (check_numerical_loop M none (reshape4 s.args), t)

/-- `EqRatio.to_constructive` (lines 89-108).  The Python f-string result is
represented by its whitespace-separated token list; falling through every
branch returns Python `None`. -/
def to_constructive (point : PointName) (args : List PointName) :
    Option (List PointName) :=
  match args with
  | [a, b, c, d, e, f, g, h] =>
    if point = h then some ["eqratio", h, a, b, c, d, e, f, g]
    else if point = g then some ["eqratio", g, a, b, c, d, e, f, h]
    else if point = f then some ["eqratio", f, c, d, a, b, g, h, e]
    else if point = e then some ["eqratio", e, c, d, a, b, g, h, f]
    else if point = d then some ["eqratio", d, e, f, g, h, a, b, c]
    else if point = c then some ["eqratio", c, e, f, g, h, a, b, d]
    else if point = b then some ["eqratio", b, g, h, e, f, c, d, a]
    else if point = a then some ["eqratio", a, g, h, e, f, c, d, b]
    else none
  | _ => none

/-- `EqRatio.preparse` (lines 28-30) delegates to `EqAngle.preparse`
unchanged.  equal_angles.py is not under src/, so the delegated function is an
explicit parameter. -/
def preparse (eqangle_preparse : List PointName → Option (List PointName))
    (args : List PointName) : Option (List PointName) :=
  eqangle_preparse args

/-- `EqRatio.parse` (lines 32-34) delegates to `EqAngle.parse` unchanged,
passing the dependency graph through; equal_angles.py is not under src/. -/
def parse {D P : Type} (eqangle_parse : List PointName → D → Option P)
    (args : List PointName) (dep_graph : D) : Option P :=
  eqangle_parse args dep_graph

end EqRatio

namespace EqRatio3

/-- `EqRatio3.check_numerical` (lines 161-169): the conjunction of the three
decomposed primitives' numeric checks, short-circuit left to right; the
closure-table trace is threaded unchanged. -/
def check_numerical {V : Type} (M : NumModel V) (s : Statement) (t : Table) :
    Bool × Table :=
  match s.args with
  | [a, b, c, d, m, n] =>
    ((EqRatio.check_numerical M (s.with_new EqRatioNAME [m, a, m, c, n, b, n, d]) t).1 &&
      (EqRatio.check_numerical M (s.with_new EqRatioNAME [m, a, a, c, b, n, b, d]) t).1 &&
      (EqRatio.check_numerical M (s.with_new EqRatioNAME [m, c, a, c, n, d, b, d]) t).1, t)
  | _ => (false, t)

/-- `EqRatio3.check` (lines 171-177): conjunction of the three decomposed
primitives' symbolic checks (each dispatches to `EqRatio.check`). -/
def check (expr_delta : SumCV → Bool) (s : Statement) : Bool :=
  match s.args with
  | [a, b, c, d, m, n] =>
    EqRatio.check expr_delta (s.with_new EqRatioNAME [m, a, m, c, n, b, n, d]) &&
      EqRatio.check expr_delta (s.with_new EqRatioNAME [m, a, a, c, b, n, b, d]) &&
      EqRatio.check expr_delta (s.with_new EqRatioNAME [m, c, a, c, n, d, b, d])
  | _ => false

/-- `EqRatio3.add` (lines 179-188): perform the `EqRatio.add` of the three
decomposed statements, first to third. -/
def add (dep : Dependency) (t : Table) : Table :=
  match dep.statement.args with
  | [a, b, c, d, m, n] =>
    EqRatio.add (dep.with_new (dep.statement.with_new EqRatioNAME [m, c, a, c, n, d, b, d]))
      (EqRatio.add (dep.with_new (dep.statement.with_new EqRatioNAME [m, a, a, c, b, n, b, d]))
        (EqRatio.add (dep.with_new (dep.statement.with_new EqRatioNAME [m, a, m, c, n, b, n, d])) t))
  | _ => t

/-- `EqRatio3.why` (lines 190-196): a new dependency carrying the queried
statement, the `Ratio_Chase` tag, and the three decomposed statements as
antecedents (no closure-table call is made). -/
def why (s : Statement) : Dependency :=
  match s.args with
  | [a, b, c, d, m, n] =>
    Dependency.mk s Ratio_Chase
      [s.with_new EqRatioNAME [m, a, m, c, n, b, n, d],
        s.with_new EqRatioNAME [m, a, a, c, b, n, b, d],
        s.with_new EqRatioNAME [m, c, a, c, n, d, b, d]]
  | _ => Dependency.mk s Ratio_Chase []

end EqRatio3

/-- The ratio of each group of four, in group order: what the spec's reading
of `check_numerical` quantifies over. -/
def ratios_of {V : Type} (M : NumModel V) (args : List PointName) : List V :=
  (reshape4 args).map (fun g => M.div (M.distance g.1 g.2.1) (M.distance g.2.2.1 g.2.2.2))

/-- The claim's reading of `EqRatio.check_numerical`: every successive
group's ratio is close enough to the FIRST group's ratio. -/
def close_to_first {V : Type} (M : NumModel V) (args : List PointName) : Bool :=
  match ratios_of M args with
  | [] => true
  | r :: rs => rs.all (M.close_enough r)

/-- What the code computes: a chain of comparisons, each group against its
predecessor. -/
def chain_close {V : Type} (M : NumModel V) : List V → Bool
  | [] => true
  | [_] => true
  | x :: y :: rest => M.close_enough x y && chain_close M (y :: rest)

/-!
Embedding of src/newclid/visualization/vis_proof.py (`parse_proof_relations`
and `adjust_node_layers`).  Python strings are embedded as `List Char`; node
identifiers (three-digit fact labels, `r_…` rule-node names) are `List Char`;
Python dicts are association lists with first-match lookup and
replace-or-append update.
-/

namespace VisProof

/-- A regex `\w` character (ASCII inputs). -/
def isWordChar (c : Char) : Bool := c.isAlphanum || c = '_'

/-- Python `str.strip()`. -/
def strip (s : List Char) : List Char :=
  ((s.dropWhile Char.isWhitespace).reverse.dropWhile Char.isWhitespace).reverse

/-- Python dict lookup `m[k]` / `k in m` (first binding wins). -/
def dict_get {V : Type} : List (List Char × V) → List Char → Option V
  | [], _ => none
  | (k', v) :: r, k => if k = k' then some v else dict_get r k

/-- Python dict update `m[k] = v`: replace the existing binding, else append. -/
def dict_set {V : Type} : List (List Char × V) → List Char → V → List (List Char × V)
  | [], k, v => [(k, v)]
  | (k', v') :: r, k, v =>
    if k = k' then (k, v) :: r else (k', v') :: dict_set r k v

/-- Python `set.add` (membership is all that matters; insertion order is kept
to make the fold over the set deterministic). -/
def insert_node (s : List (List Char)) (x : List Char) : List (List Char) :=
  if x ∈ s then s else s ++ [x]

/-- The suffix just after the first occurrence of `pat`. -/
def dropThroughSub (pat : List Char) : List Char → Option (List Char)
  | [] => if pat.isEmpty then some [] else none
  | c :: rest =>
    if pat.isPrefixOf (c :: rest) then some ((c :: rest).drop pat.length)
    else dropThroughSub pat rest

/-- The prefix strictly before the first occurrence of `pat`. -/
def takeUntilSub (pat : List Char) : List Char → Option (List Char)
  | [] => if pat.isEmpty then some [] else none
  | c :: rest =>
    if pat.isPrefixOf (c :: rest) then some []
    else (takeUntilSub pat rest).map (c :: ·)

/-- `re.search(r'<proof>(.*?)</proof>', s, re.DOTALL)`: the (lazy, hence
shortest) content between the first `<proof>` and the next `</proof>`. -/
def proofContent (llm_output : List Char) : Option (List Char) :=
  (dropThroughSub ("<proof>".data) llm_output).bind (takeUntilSub ("</proof>".data))

/-- `re.search(r'(.*?\[\d{3}\])', line)` plus the label extraction
`re.search(r'\[(\d{3})\]', …)` and `line.replace(concl_part, '', 1)`: the
shortest prefix ending in a `[ddd]` label, that label's three digits, and the
remaining suffix.  The lines fed to it are already stripped, so the prefix is
its own `strip()`. -/
def splitFirstLabel : List Char → Option (List Char × List Char × List Char)
  | [] => none
  | c :: rest =>
    match c, rest with
    | '[', d1 :: d2 :: d3 :: ']' :: rest2 =>
      if d1.isDigit && d2.isDigit && d3.isDigit then
        some (['[', d1, d2, d3, ']'], [d1, d2, d3], rest2)
      else
        (splitFirstLabel rest).map (fun r => ('[' :: r.1, r.2.1, r.2.2))
    | _, _ =>
      (splitFirstLabel rest).map (fun r => (c :: r.1, r.2.1, r.2.2))

/-- `re.findall(r'(\d{3})', s)`: non-overlapping three-digit runs, scanning
left to right.  The fuel argument (instantiated with the string's length,
which the scan never exhausts since every step consumes at least one
character) only makes the recursion structural. -/
def findall3_go : Nat → List Char → List (List Char)
  | 0, _ => []
  | _ + 1, [] => []
  | fuel + 1, d1 :: rest1 =>
    match rest1 with
    | d2 :: d3 :: rest =>
      if d1.isDigit && d2.isDigit && d3.isDigit then [d1, d2, d3] :: findall3_go fuel rest
      else findall3_go fuel rest1
    | _ => []

def findallDigits3 (s : List Char) : List (List Char) :=
  findall3_go s.length s

/-- The generated rule-node identifier
`f'r_{rule_name}_{count + 1}'` where `count` is the number of existing rule
nodes whose name starts with `r_{rule_name}` (vis_proof.py line 162). -/
def rule_node_of (rule_nodes : List (List Char)) (rule_name : List Char) : List Char :=
  let pre := 'r' :: '_' :: rule_name
  let count := rule_nodes.countP (fun rn => pre.isPrefixOf rn)
  pre ++ '_' :: Nat.toDigits 10 (count + 1)

/-- Python `max` of a nonempty list (the empty case is unreachable at the
call site, which is guarded by `if not valid_premises: continue`). -/
def max_list : List Int → Int
  | [] => 0
  | x :: xs => xs.foldl max x

/-- The mutable state of `parse_proof_relations` (vis_proof.py lines
119-124): the fact dictionary, the fact-node and rule-node sets, the edge
list, and the node-layer dictionary. -/
structure ParseState where
  stmt_map : List (List Char × List Char)
  fact_nodes : List (List Char)
  rule_nodes : List (List Char)
  edges : List (List Char × List Char)
  node_layer : List (List Char × Int)

/-- Lines 144-150 of vis_proof.py: record the conclusion in the fact
dictionary and fact-node set, and give it layer 1 if it has no layer yet. -/
def base_update (st : ParseState) (concl_label concl_part : List Char) : ParseState :=
  { st with
    stmt_map := dict_set st.stmt_map concl_label concl_part,
    fact_nodes := insert_node st.fact_nodes concl_label,
    node_layer :=
      match dict_get st.node_layer concl_label with
      | none => dict_set st.node_layer concl_label 1
      | some _ => st.node_layer }

/-- Lines 178-195 of vis_proof.py: compute the rule and conclusion layers
from the valid premises' layers and append the premise→rule and
rule→conclusion edges. -/
def finish_update (st : ParseState) (concl_label rule_node : List Char)
    (valid_premises : List (List Char)) : ParseState :=
  let prem_layers := valid_premises.map (fun p => (dict_get st.node_layer p).getD 0)
  let rule_layer := max_list prem_layers + 1
  let concl_layer := rule_layer + 1
  { st with
    node_layer := dict_set (dict_set st.node_layer rule_node rule_layer) concl_label concl_layer,
    edges := st.edges ++ valid_premises.map (fun p => (p, rule_node)) ++
      [(rule_node, concl_label)] }

/-- One iteration of the proof-line loop of `parse_proof_relations`
(vis_proof.py lines 127-195), with each `continue` an early state return:
skip lines with no labelled conclusion; record the conclusion; skip when no
rule name follows; create the rule node; skip when no premise label resolves
in the fact dictionary; otherwise assign layers and edges. -/
def process_line (st : ParseState) (line : List Char) : ParseState :=
  match splitFirstLabel line with
  | none => st
  | some (concl_part, concl_label, after) =>
    let st1 := base_update st concl_label concl_part
    let rule_prem := strip after
    let rule_name := rule_prem.takeWhile isWordChar
    if rule_name.isEmpty then st1
    else
      let rule_node := rule_node_of st.rule_nodes rule_name
      let st2 := { st1 with rule_nodes := insert_node st.rule_nodes rule_node }
      let premise_labels := findallDigits3 rule_prem
      let valid_premises := premise_labels.filter (fun p => (dict_get st1.stmt_map p).isSome)
      if valid_premises.isEmpty then st2
      else finish_update st2 concl_label rule_node valid_premises

/-- `parse_proof_relations` (vis_proof.py lines 94-198): `none` when no
`<proof>` tag is found; otherwise split the tag content on `;`, strip, drop
empty lines, and fold the line loop over the initial state (initial facts at
layer 1). -/
def parse_proof_relations (llm_output : List Char)
    (initial_stmt_map : List (List Char × List Char)) : Option ParseState :=
  match proofContent llm_output with
  | none => none
  | some content =>
    let proof_lines := (((strip content).splitOn ';').map strip).filter (fun l => !l.isEmpty)
    let keys := initial_stmt_map.map Prod.fst
    let init : ParseState :=
      { stmt_map := initial_stmt_map, fact_nodes := keys, rule_nodes := [],
        edges := [], node_layer := keys.map (fun l => (l, (1 : Int))) }
    some (proof_lines.foldl process_line init)

/-- `adjust_node_layers` (vis_proof.py lines 201-229): for every rule node
with premises (edge sources pointing at it) and an even layer (default 0),
force all its premises to the layer just below it. -/
def adjust_node_layers (rule_nodes : List (List Char))
    (edges : List (List Char × List Char)) (node_layer : List (List Char × Int)) :
    List (List Char × Int) :=
  rule_nodes.foldl
    (fun nl rule_node =>
      if ((edges.filter (fun e => e.2 == rule_node)).map Prod.fst).isEmpty then nl
      else if (dict_get nl rule_node).getD 0 % 2 = 0 then
        ((edges.filter (fun e => e.2 == rule_node)).map Prod.fst).foldl
          (fun nl2 p => dict_set nl2 p ((dict_get nl rule_node).getD 0 - 1)) nl
      else nl)
    node_layer

/-- The layering invariant of the proof-trace DAG, on the layers after
`adjust_node_layers`: every fact node carries an odd layer; every rule node
that carries a layer carries an even one, and every rule node with at least
one incoming edge does carry one; every edge joins a fact to a rule node or a
rule node to a fact. -/
def LayeredDAG (st : ParseState) : Prop :=
  let nl := adjust_node_layers st.rule_nodes st.edges st.node_layer
  (∀ f ∈ st.fact_nodes, ∃ v, dict_get nl f = some v ∧ v % 2 = 1) ∧
  (∀ r ∈ st.rule_nodes, ∀ v, dict_get nl r = some v → v % 2 = 0) ∧
  (∀ r ∈ st.rule_nodes, (∃ e ∈ st.edges, e.2 = r) →
    ∃ v, dict_get nl r = some v ∧ v % 2 = 0) ∧
  (∀ e ∈ st.edges,
    (e.1 ∈ st.fact_nodes ∧ e.2 ∈ st.rule_nodes) ∨
    (e.1 ∈ st.rule_nodes ∧ e.2 ∈ st.fact_nodes))

/-- The induction invariant of the proof-line loop: fact labels are digit
strings at odd layers; rule nodes start with the character `r` and, when they
carry a layer, carry an even one; statement-dictionary keys are fact nodes;
node-layer keys are known nodes; edges join facts to rules or rules to facts;
and every rule node that appears as an edge target has an assigned layer. -/
structure Inv (st : ParseState) : Prop where
  fact_digit : ∀ f ∈ st.fact_nodes, f.all Char.isDigit = true
  rule_shape : ∀ r ∈ st.rule_nodes, ∃ t, r = 'r' :: t
  stmt_keys : ∀ k, (dict_get st.stmt_map k).isSome = true → k ∈ st.fact_nodes
  fact_layer : ∀ f ∈ st.fact_nodes, ∃ v, dict_get st.node_layer f = some v ∧ v % 2 = 1
  rule_layer : ∀ r ∈ st.rule_nodes, ∀ v, dict_get st.node_layer r = some v → v % 2 = 0
  layer_keys : ∀ k v, dict_get st.node_layer k = some v → k ∈ st.fact_nodes ∨ k ∈ st.rule_nodes
  edges_shape : ∀ e ∈ st.edges,
    (e.1 ∈ st.fact_nodes ∧ e.2 ∈ st.rule_nodes) ∨ (e.1 ∈ st.rule_nodes ∧ e.2 ∈ st.fact_nodes)
  edge_rule_assigned : ∀ e ∈ st.edges, e.2 ∈ st.rule_nodes →
    (dict_get st.node_layer e.2).isSome = true

end VisProof

/-!
Theorems.  Each claim's theorem is marked with its claim id.
-/

/-- Unfolding of `EqRatio3.preparse` in the non-degenerate case. -/
theorem preparse_eq_some (a b c d m n : PointName)
    (h : ¬([a, c, m].dedup.length < 3 ∨ [b, d, n].dedup.length < 3)) :
    EqRatio3.preparse a b c d m n =
      some (flatten_pairs (min_groups
        (List.insertionSort pair_le [(a, b), (c, d), (m, n)])
        (List.insertionSort pair_le [(b, a), (d, c), (n, m)]))) := by
  unfold EqRatio3.preparse
  rw [if_neg h]

/-- Unfolding of `EqRatio3.preparse` in the degenerate case. -/
theorem preparse_eq_none (a b c d m n : PointName)
    (h : [a, c, m].dedup.length < 3 ∨ [b, d, n].dedup.length < 3) :
    EqRatio3.preparse a b c d m n = none := by
  unfold EqRatio3.preparse
  rw [if_pos h]

/-- C2: `EqRatio3.preparse` returns the rejection value `none` exactly when
the group {a, c, m} or the group {b, d, n} has fewer than three distinct
points, and in particular any input with `a = m` is rejected. -/
theorem eqratio3_preparse_rejects_iff_degenerate (a b c d m n : PointName) :
    (EqRatio3.preparse a b c d m n = none ↔
      ([a, c, m].dedup.length < 3 ∨ [b, d, n].dedup.length < 3)) ∧
    (a = m → EqRatio3.preparse a b c d m n = none) := by
  constructor
  · constructor
    · intro h
      by_contra hc
      rw [preparse_eq_some a b c d m n hc] at h
      exact Option.some_ne_none _ h
    · exact preparse_eq_none a b c d m n
  · intro ham
    apply preparse_eq_none
    left
    have h1 : [a, c, m].dedup = [c, m].dedup := by
      rw [ham]
      exact List.dedup_cons_of_mem (by simp)
    have h2 : [c, m].dedup.length ≤ 2 :=
      le_trans (List.Sublist.length_le (List.dedup_sublist _)) (by simp)
    rw [h1]
    omega

/-- Witness for C2's theorem: the concrete degenerate input `a = m = "x"` is
rejected. -/
theorem eqratio3_preparse_rejects_witness :
    EqRatio3.preparse "x" "b" "c" "d" "x" "n" = none :=
  (eqratio3_preparse_rejects_iff_degenerate "x" "b" "c" "d" "x" "n").2 rfl

/-- C9: `EqRatio.preparse` and `EqRatio.parse` delegate to the corresponding
`EqAngle` operations unchanged, for every delegated function, argument tuple
and dependency graph. -/
theorem eqratio_preparse_parse_delegates_to_eqangle
    (eqangle_preparse : List PointName → Option (List PointName))
    {D P : Type} (eqangle_parse : List PointName → D → Option P)
    (args : List PointName) (dep_graph : D) :
    EqRatio.preparse eqangle_preparse args = eqangle_preparse args ∧
    EqRatio.parse eqangle_parse args dep_graph = eqangle_parse args dep_graph :=
  ⟨rfl, rfl⟩

/-- C1: asserting `eqratio3 a b c d m n` performs exactly the `EqRatio.add`
of the three decomposed statements with argument patterns
`(m,a,m,c,n,b,n,d)`, `(m,a,a,c,b,n,b,d)`, `(m,c,a,c,n,d,b,d)`, in that fixed
order (so the closure table receives the identical insertion trace), and
`EqRatio3.check` is true iff `EqRatio.check` is true on each of the same
three statements. -/
theorem eqratio3_add_check_decompose (expr_delta : SumCV → Bool) (t : Table)
    (reason : String) (ante : List Statement) (a b c d m n : PointName) :
    (EqRatio3.add ⟨⟨EqRatio3NAME, [a, b, c, d, m, n]⟩, reason, ante⟩ t =
      EqRatio.add ⟨⟨EqRatioNAME, [m, c, a, c, n, d, b, d]⟩, reason, ante⟩
        (EqRatio.add ⟨⟨EqRatioNAME, [m, a, a, c, b, n, b, d]⟩, reason, ante⟩
          (EqRatio.add ⟨⟨EqRatioNAME, [m, a, m, c, n, b, n, d]⟩, reason, ante⟩ t))) ∧
    (EqRatio3.check expr_delta ⟨EqRatio3NAME, [a, b, c, d, m, n]⟩ = true ↔
      (EqRatio.check expr_delta ⟨EqRatioNAME, [m, a, m, c, n, b, n, d]⟩ = true ∧
        EqRatio.check expr_delta ⟨EqRatioNAME, [m, a, a, c, b, n, b, d]⟩ = true ∧
        EqRatio.check expr_delta ⟨EqRatioNAME, [m, c, a, c, n, d, b, d]⟩ = true)) := by
  constructor
  · rfl
  · simp [EqRatio3.check, Statement.with_new, Bool.and_eq_true, and_assoc]

/-- C5 counterexample: for the concrete statement `eqratio3 a b c d m n` and
the closure table whose `why` query returns no facts, the claim predicts that
`EqRatio3.why`'s antecedent list equals the facts gathered from the table's
`why` call on each decomposed expression (the empty list); the code instead
cites the three decomposed statements themselves without consulting the
table. -/
theorem eqratio3_why_antecedents_not_table_gathered :
    (EqRatio3.why ⟨EqRatio3NAME, ["a", "b", "c", "d", "m", "n"]⟩).why ≠
      ((EqRatio._prep_ar ["m", "a", "m", "c", "n", "b", "n", "d"] ++
        EqRatio._prep_ar ["m", "a", "a", "c", "b", "n", "b", "d"] ++
        EqRatio._prep_ar ["m", "c", "a", "c", "n", "d", "b", "d"]).flatMap
          (fun _ => ([] : List Dependency))).map Dependency.statement := by
  decide

/-- C5 (amended): `EqRatio.why` composes, in order, the facts gathered from
the closure table's `why` call for each of its prepared expressions into a
single new dependency carrying the queried statement and the `Ratio_Chase`
tag; `EqRatio3.why` also carries the queried statement and the `Ratio_Chase`
tag, but its antecedent list is exactly the three decomposed statements, in
decomposition order, without any closure-table call. -/
theorem eqratio_why_composition (table_why : SumCV → List Dependency)
    (p1 p2 p3 p4 p5 p6 p7 p8 p9 p10 p11 p12 : PointName) (a b c d m n : PointName) :
    (EqRatio.why table_why ⟨EqRatioNAME, [p1, p2, p3, p4, p5, p6, p7, p8]⟩ =
      Dependency.mk ⟨EqRatioNAME, [p1, p2, p3, p4, p5, p6, p7, p8]⟩ Ratio_Chase
        ((table_why (SumCV.mk (Length.mk p1 p2) (Length.mk p3 p4)
          (Length.mk p5 p6) (Length.mk p7 p8))).map Dependency.statement)) ∧
    (EqRatio.why table_why ⟨EqRatioNAME, [p1, p2, p3, p4, p5, p6, p7, p8, p9, p10, p11, p12]⟩ =
      Dependency.mk ⟨EqRatioNAME, [p1, p2, p3, p4, p5, p6, p7, p8, p9, p10, p11, p12]⟩ Ratio_Chase
        ((table_why (SumCV.mk (Length.mk p1 p2) (Length.mk p3 p4)
            (Length.mk p5 p6) (Length.mk p7 p8)) ++
          table_why (SumCV.mk (Length.mk p1 p2) (Length.mk p3 p4)
            (Length.mk p9 p10) (Length.mk p11 p12))).map Dependency.statement)) ∧
    (EqRatio3.why ⟨EqRatio3NAME, [a, b, c, d, m, n]⟩ =
      Dependency.mk ⟨EqRatio3NAME, [a, b, c, d, m, n]⟩ Ratio_Chase
        [⟨EqRatioNAME, [m, a, m, c, n, b, n, d]⟩,
          ⟨EqRatioNAME, [m, a, a, c, b, n, b, d]⟩,
          ⟨EqRatioNAME, [m, c, a, c, n, d, b, d]⟩]) := by
  refine ⟨?_, ?_, rfl⟩
  · simp [EqRatio.why, EqRatio._prep_ar, EqRatio.prep_ar_loop]
  · simp [EqRatio.why, EqRatio._prep_ar, EqRatio.prep_ar_loop]

/-- C6: for distinct arguments and a point equal to one of them,
`EqRatio.to_constructive` returns an `eqratio` token string whose first point
token is the given point and whose eight point tokens are a permutation of
the eight arguments. -/
theorem eqratio_to_constructive_point_first (p a b c d e f g h : PointName)
    (hnd : ([a, b, c, d, e, f, g, h] : List PointName).Nodup)
    (hp : p ∈ ([a, b, c, d, e, f, g, h] : List PointName)) :
    ∃ rest, EqRatio.to_constructive p [a, b, c, d, e, f, g, h] =
        some ("eqratio" :: p :: rest) ∧
      (p :: rest).Perm [a, b, c, d, e, f, g, h] := by
  simp only [List.nodup_cons, List.mem_cons, List.not_mem_nil, or_false, not_or,
    List.nodup_nil, and_true] at hnd
  obtain ⟨⟨hab, hac, had, hae, haf, hag, hah⟩, ⟨hbc, hbd, hbe, hbf, hbg, hbh⟩,
    ⟨hcd, hce, hcf, hcg, hch⟩, ⟨hde, hdf, hdg, hdh⟩, ⟨hef, heg, heh⟩, ⟨hfg, hfh⟩, hgh⟩ := hnd
  simp only [List.mem_cons, List.not_mem_nil, or_false] at hp
  rcases hp with rfl | rfl | rfl | rfl | rfl | rfl | rfl | rfl
  · refine ⟨[g, h, e, f, c, d, b], ?_, ?_⟩
    · simp [EqRatio.to_constructive, hab, hac, had, hae, haf, hag, hah]
    · refine List.perm_iff_count.2 fun x => ?_
      simp only [List.count_cons, List.count_nil]
      ac_rfl
  · refine ⟨[g, h, e, f, c, d, a], ?_, ?_⟩
    · simp [EqRatio.to_constructive, hbc, hbd, hbe, hbf, hbg, hbh]
    · refine List.perm_iff_count.2 fun x => ?_
      simp only [List.count_cons, List.count_nil]
      ac_rfl
  · refine ⟨[e, f, g, h, a, b, d], ?_, ?_⟩
    · simp [EqRatio.to_constructive, hcd, hce, hcf, hcg, hch]
    · refine List.perm_iff_count.2 fun x => ?_
      simp only [List.count_cons, List.count_nil]
      ac_rfl
  · refine ⟨[e, f, g, h, a, b, c], ?_, ?_⟩
    · simp [EqRatio.to_constructive, hde, hdf, hdg, hdh]
    · refine List.perm_iff_count.2 fun x => ?_
      simp only [List.count_cons, List.count_nil]
      ac_rfl
  · refine ⟨[c, d, a, b, g, h, f], ?_, ?_⟩
    · simp [EqRatio.to_constructive, hef, heg, heh]
    · refine List.perm_iff_count.2 fun x => ?_
      simp only [List.count_cons, List.count_nil]
      ac_rfl
  · refine ⟨[c, d, a, b, g, h, e], ?_, ?_⟩
    · simp [EqRatio.to_constructive, hfg, hfh]
    · refine List.perm_iff_count.2 fun x => ?_
      simp only [List.count_cons, List.count_nil]
      ac_rfl
  · refine ⟨[a, b, c, d, e, f, h], ?_, ?_⟩
    · simp [EqRatio.to_constructive, hgh]
    · refine List.perm_iff_count.2 fun x => ?_
      simp only [List.count_cons, List.count_nil]
      ac_rfl
  · refine ⟨[a, b, c, d, e, f, g], ?_, ?_⟩
    · simp [EqRatio.to_constructive]
    · refine List.perm_iff_count.2 fun x => ?_
      simp only [List.count_cons, List.count_nil]
      ac_rfl

/-- Witness for C6's theorem at a concrete distinct 8-tuple with the target
point in third position. -/
theorem eqratio_to_constructive_point_first_witness :
    ∃ rest, EqRatio.to_constructive "p3"
        ["p1", "p2", "p3", "p4", "p5", "p6", "p7", "p8"] =
        some ("eqratio" :: "p3" :: rest) ∧
      ("p3" :: rest).Perm ["p1", "p2", "p3", "p4", "p5", "p6", "p7", "p8"] :=
  eqratio_to_constructive_point_first "p3" "p1" "p2" "p3" "p4" "p5" "p6" "p7" "p8"
    (by decide) (by decide)

/-- C10: when the given point equals none of the eight argument names,
`EqRatio.to_constructive` falls through every branch and returns `none`. -/
theorem eqratio_to_constructive_none_of_fresh (p a b c d e f g h : PointName)
    (h1 : p ≠ a) (h2 : p ≠ b) (h3 : p ≠ c) (h4 : p ≠ d) (h5 : p ≠ e)
    (h6 : p ≠ f) (h7 : p ≠ g) (h8 : p ≠ h) :
    EqRatio.to_constructive p [a, b, c, d, e, f, g, h] = none := by
  simp [EqRatio.to_constructive, h1, h2, h3, h4, h5, h6, h7, h8]

/-- Witness for C10's theorem at a concrete fresh point. -/
theorem eqratio_to_constructive_none_witness :
    EqRatio.to_constructive "q" ["p1", "p2", "p3", "p4", "p5", "p6", "p7", "p8"] = none :=
  eqratio_to_constructive_none_of_fresh "q" "p1" "p2" "p3" "p4" "p5" "p6" "p7" "p8"
    (by decide) (by decide) (by decide) (by decide) (by decide) (by decide)
    (by decide) (by decide)

/-- The accumulator loop of `EqRatio.check_numerical`, once a previous ratio
exists, is the chain of comparisons of each ratio against its predecessor. -/
theorem check_numerical_loop_some_eq_chain {V : Type} (M : NumModel V) :
    ∀ (gs : List (PointName × PointName × PointName × PointName)) (r : V),
      EqRatio.check_numerical_loop M (some r) gs =
        chain_close M (r :: gs.map (fun g => M.div (M.distance g.1 g.2.1) (M.distance g.2.2.1 g.2.2.2))) := by
  intro gs
  induction gs with
  | nil => intro r; rfl
  | cons g rest ih =>
    intro r
    obtain ⟨ga, gb, gc, gd⟩ := g
    simp only [EqRatio.check_numerical_loop, List.map_cons, chain_close, ih]
    cases hce : M.close_enough r (M.div (M.distance ga gb) (M.distance gc gd)) <;> simp [hce]

/-- `EqRatio.check_numerical` computes the chain of pairwise-successive
comparisons over the group ratios. -/
theorem check_numerical_eq_chain {V : Type} (M : NumModel V) (s : Statement) (t : Table) :
    (EqRatio.check_numerical M s t).1 = chain_close M (ratios_of M s.args) := by
  unfold EqRatio.check_numerical ratios_of
  cases hr : reshape4 s.args with
  | nil => rfl
  | cons g rest =>
    obtain ⟨ga, gb, gc, gd⟩ := g
    simp only [EqRatio.check_numerical_loop, List.map_cons, check_numerical_loop_some_eq_chain]

/-- C7 counterexample: a concrete numeric model (an instance of the external
measurement capability) and a 12-point `eqratio` statement whose three group
ratios are 100, 109 and 118 under tolerance 10: each group is close enough to
its predecessor, so `EqRatio.check_numerical` succeeds, but the third group is
not close enough to the FIRST group, refuting the claim's reading. -/
theorem eqratio_check_numerical_not_vs_first :
    ((EqRatio.check_numerical
        { distance := fun p _ =>
            if p = "p1" then (200 : Int) else if p = "p5" then 218 else if p = "p9" then 236 else 2,
          div := fun x y => x / y,
          close_enough := fun x y => decide ((x - y).natAbs ≤ 10) }
        ⟨EqRatioNAME, ["p1", "p2", "p3", "p4", "p5", "p6", "p7", "p8", "p9", "p10", "p11", "p12"]⟩
        []).1 ≠
      close_to_first
        { distance := fun p _ =>
            if p = "p1" then (200 : Int) else if p = "p5" then 218 else if p = "p9" then 236 else 2,
          div := fun x y => x / y,
          close_enough := fun x y => decide ((x - y).natAbs ≤ 10) }
        ["p1", "p2", "p3", "p4", "p5", "p6", "p7", "p8", "p9", "p10", "p11", "p12"]) := by
  decide

/-- C7 (amended): `EqRatio3.check_numerical` is the conjunction of the three
decomposed primitives' numeric checks; `EqRatio.check_numerical` succeeds iff
each successive group ratio is close enough to the PREVIOUS group's ratio
(the chain, not comparison against the first group); and neither operation
writes to the closure table (the trace is returned unchanged). -/
theorem check_numerical_conjunctive_chain_pure {V : Type} (M : NumModel V)
    (t : Table) (pred : String) (args : List PointName) (a b c d m n : PointName) :
    ((EqRatio.check_numerical M ⟨pred, args⟩ t).1 = chain_close M (ratios_of M args)) ∧
    ((EqRatio.check_numerical M ⟨pred, args⟩ t).2 = t) ∧
    ((EqRatio3.check_numerical M ⟨EqRatio3NAME, [a, b, c, d, m, n]⟩ t).1 =
      ((EqRatio.check_numerical M ⟨EqRatioNAME, [m, a, m, c, n, b, n, d]⟩ t).1 &&
        (EqRatio.check_numerical M ⟨EqRatioNAME, [m, a, a, c, b, n, b, d]⟩ t).1 &&
        (EqRatio.check_numerical M ⟨EqRatioNAME, [m, c, a, c, n, d, b, d]⟩ t).1)) ∧
    ((EqRatio3.check_numerical M ⟨EqRatio3NAME, [a, b, c, d, m, n]⟩ t).2 = t) :=
  ⟨check_numerical_eq_chain M ⟨pred, args⟩ t, rfl, rfl, rfl⟩

/-- The stable sort of the argument pairs depends only on the multiset of
pairs: `pair_le` is total, transitive and antisymmetric, so two sorted
permutations of each other coincide. -/
theorem insertionSort_eq_of_perm {l1 l2 : List (PointName × PointName)} (h : l1.Perm l2) :
    List.insertionSort pair_le l1 = List.insertionSort pair_le l2 :=
  List.eq_of_perm_of_sorted
    ((List.perm_insertionSort pair_le l1).trans (h.trans (List.perm_insertionSort pair_le l2).symm))
    (List.sorted_insertionSort pair_le l1) (List.sorted_insertionSort pair_le l2)

/-- The key Python's `min` compares is injective on candidate orderings. -/
theorem groups_key_inj {u v : List (PointName × PointName)}
    (h : groups_key u = groups_key v) : u = v := by
  have hpk : Function.Injective pair_key := fun x y hxy => by
    simp only [pair_key, custom_key, List.cons.injEq, and_true] at hxy
    exact Prod.ext (String.ext hxy.1) (String.ext hxy.2)
  exact List.map_injective_iff.2 hpk h

/-- Python's keyed two-argument `min` is symmetric here: on a key tie the two
candidates are equal, since the key is injective. -/
theorem min_groups_comm (u v : List (PointName × PointName)) :
    min_groups u v = min_groups v u := by
  unfold min_groups
  by_cases h1 : groups_key v < groups_key u
  · rw [if_pos h1, if_neg (asymm h1)]
  · rw [if_neg h1]
    by_cases h2 : groups_key u < groups_key v
    · rw [if_pos h2]
    · rw [if_neg h2]
      exact groups_key_inj (le_antisymm (not_lt.1 h1) (not_lt.1 h2))

/-- Shared invariance core for C3 and C4: replacing the three argument pairs
by any permutation of themselves, or any permutation of their simultaneous
reversals, leaves the `preparse` result unchanged on non-degenerate input. -/
theorem preparse_groups_invariant (a b c d m n x1 y1 x2 y2 x3 y3 : PointName)
    (hperm : ([(x1, y1), (x2, y2), (x3, y3)] : List (PointName × PointName)).Perm
        [(a, b), (c, d), (m, n)] ∨
      ([(x1, y1), (x2, y2), (x3, y3)] : List (PointName × PointName)).Perm
        [(b, a), (d, c), (n, m)])
    (hnd : ¬([a, c, m].dedup.length < 3 ∨ [b, d, n].dedup.length < 3)) :
    EqRatio3.preparse x1 y1 x2 y2 x3 y3 = EqRatio3.preparse a b c d m n := by
  rcases hperm with hp | hp
  · have hfst : ([x1, x2, x3] : List PointName).Perm [a, c, m] := by
      simpa using hp.map Prod.fst
    have hsnd : ([y1, y2, y3] : List PointName).Perm [b, d, n] := by
      simpa using hp.map Prod.snd
    have hndx : ¬([x1, x2, x3].dedup.length < 3 ∨ [y1, y2, y3].dedup.length < 3) := by
      rw [hfst.dedup.length_eq, hsnd.dedup.length_eq]
      exact hnd
    rw [preparse_eq_some _ _ _ _ _ _ hndx, preparse_eq_some _ _ _ _ _ _ hnd,
      @insertionSort_eq_of_perm [(x1, y1), (x2, y2), (x3, y3)]
        [(a, b), (c, d), (m, n)] hp,
      @insertionSort_eq_of_perm [(y1, x1), (y2, x2), (y3, x3)]
        [(b, a), (d, c), (n, m)] (by simpa using hp.map Prod.swap)]
  · have hfst : ([x1, x2, x3] : List PointName).Perm [b, d, n] := by
      simpa using hp.map Prod.fst
    have hsnd : ([y1, y2, y3] : List PointName).Perm [a, c, m] := by
      simpa using hp.map Prod.snd
    have hndx : ¬([x1, x2, x3].dedup.length < 3 ∨ [y1, y2, y3].dedup.length < 3) := by
      rw [hfst.dedup.length_eq, hsnd.dedup.length_eq]
      exact fun h => hnd (Or.symm h)
    rw [preparse_eq_some _ _ _ _ _ _ hndx, preparse_eq_some _ _ _ _ _ _ hnd,
      @insertionSort_eq_of_perm [(x1, y1), (x2, y2), (x3, y3)]
        [(b, a), (d, c), (n, m)] hp,
      @insertionSort_eq_of_perm [(y1, x1), (y2, x2), (y3, x3)]
        [(a, b), (c, d), (m, n)] (by simpa using hp.map Prod.swap),
      min_groups_comm]

/-- C4: for every non-degenerate input, every input obtained by permuting the
three pairs (a,b), (c,d), (m,n) among themselves and/or simultaneously
reversing each pair yields the same `EqRatio3.preparse` output. -/
theorem eqratio3_preparse_symmetry_invariant (a b c d m n x1 y1 x2 y2 x3 y3 : PointName)
    (hperm : ([(x1, y1), (x2, y2), (x3, y3)] : List (PointName × PointName)).Perm
        [(a, b), (c, d), (m, n)] ∨
      ([(x1, y1), (x2, y2), (x3, y3)] : List (PointName × PointName)).Perm
        [(b, a), (d, c), (n, m)])
    (hsome : EqRatio3.preparse a b c d m n ≠ none) :
    EqRatio3.preparse x1 y1 x2 y2 x3 y3 = EqRatio3.preparse a b c d m n :=
  preparse_groups_invariant a b c d m n x1 y1 x2 y2 x3 y3 hperm
    (fun hdeg => hsome (preparse_eq_none a b c d m n hdeg))

/-- Witness for C4's theorem: swapping both sides of the configuration and
permuting the pairs of `eqratio3 a b c d m n` canonicalizes identically. -/
theorem eqratio3_preparse_symmetry_witness :
    EqRatio3.preparse "d" "c" "b" "a" "n" "m" = EqRatio3.preparse "a" "b" "c" "d" "m" "n" :=
  eqratio3_preparse_symmetry_invariant "a" "b" "c" "d" "m" "n" "d" "c" "b" "a" "n" "m"
    (Or.inr (by decide)) (by decide)

/-- C3: canonicalization is idempotent: applying `EqRatio3.preparse` to its
own (non-rejected) output returns that output unchanged. -/
theorem eqratio3_preparse_idempotent (a b c d m n a2 b2 c2 d2 m2 n2 : PointName)
    (h : EqRatio3.preparse a b c d m n = some [a2, b2, c2, d2, m2, n2]) :
    EqRatio3.preparse a2 b2 c2 d2 m2 n2 = some [a2, b2, c2, d2, m2, n2] := by
  have hnd : ¬([a, c, m].dedup.length < 3 ∨ [b, d, n].dedup.length < 3) := by
    intro hdeg
    rw [preparse_eq_none a b c d m n hdeg] at h
    exact Option.noConfusion h
  have hsome := preparse_eq_some a b c d m n hnd
  set ch := min_groups (List.insertionSort pair_le [(a, b), (c, d), (m, n)])
      (List.insertionSort pair_le [(b, a), (d, c), (n, m)]) with hch
  rw [hsome] at h
  have hch_cases : ch.Perm [(a, b), (c, d), (m, n)] ∨ ch.Perm [(b, a), (d, c), (n, m)] := by
    rw [hch]
    unfold min_groups
    split
    · exact Or.inr (List.perm_insertionSort pair_le _)
    · exact Or.inl (List.perm_insertionSort pair_le _)
  have hlen : ch.length = 3 := by
    rcases hch_cases with h' | h' <;> simpa using h'.length_eq
  obtain ⟨u, v, w, hch3⟩ := List.length_eq_three.1 hlen
  have hflat : [u.1, u.2, v.1, v.2, w.1, w.2] = [a2, b2, c2, d2, m2, n2] := by
    have h6 := Option.some_inj.1 h
    rw [hch3] at h6
    simpa [flatten_pairs] using h6
  have hxch : ([(a2, b2), (c2, d2), (m2, n2)] : List (PointName × PointName)) = ch := by
    simp only [List.cons.injEq, and_true] at hflat
    obtain ⟨e1, e2, e3, e4, e5, e6⟩ := hflat
    rw [hch3, ← e1, ← e2, ← e3, ← e4, ← e5, ← e6]
  rw [← hxch] at hch_cases
  rw [preparse_groups_invariant a b c d m n a2 b2 c2 d2 m2 n2 hch_cases hnd, hsome]
  exact h

/-- Witness for C3's theorem: the concrete non-canonical input
`eqratio3 c d a b m n` canonicalizes to `[a, b, c, d, m, n]`, which
canonicalizes to itself. -/
theorem eqratio3_preparse_idempotent_witness :
    EqRatio3.preparse "a" "b" "c" "d" "m" "n" = some ["a", "b", "c", "d", "m", "n"] :=
  eqratio3_preparse_idempotent "c" "d" "a" "b" "m" "n" "a" "b" "c" "d" "m" "n" (by decide)

namespace VisProof

/-- Lookup after a dict update. -/
theorem dict_get_set {V : Type} (m : List (List Char × V)) (k k' : List Char) (v : V) :
    dict_get (dict_set m k v) k' = if k' = k then some v else dict_get m k' := by
  induction m with
  | nil => simp only [dict_set, dict_get]
  | cons kv r ih =>
    obtain ⟨k0, v0⟩ := kv
    simp only [dict_set]
    by_cases hk : k = k0
    · rw [if_pos hk]
      subst hk
      simp only [dict_get]
      by_cases h' : k' = k <;> simp [h']
    · rw [if_neg hk]
      simp only [dict_get]
      by_cases h' : k' = k0
      · have hne : ¬k' = k := fun hh => hk ((hh ▸ h' : k = k0))
        have hne2 : ¬k0 = k := fun hh => hk hh.symm
        simp [h', hne, hne2]
      · simp [h', ih]

/-- Membership in the set after `set.add`. -/
theorem mem_insert_node {s : List (List Char)} {x y : List Char} :
    x ∈ insert_node s y ↔ x ∈ s ∨ x = y := by
  unfold insert_node
  split_ifs with h
  · constructor
    · exact Or.inl
    · rintro (hx | rfl)
      · exact hx
      · exact h
  · simp

theorem insert_node_sub {s : List (List Char)} {x y : List Char} (hx : x ∈ s) :
    x ∈ insert_node s y :=
  mem_insert_node.2 (Or.inl hx)

theorem insert_node_self {s : List (List Char)} {y : List Char} :
    y ∈ insert_node s y :=
  mem_insert_node.2 (Or.inr rfl)

/-- A digit-string fact label is never a rule-node name. -/
theorem fact_ne_rule {f r : List Char} (hf : f.all Char.isDigit = true)
    (hr : ∃ t, r = 'r' :: t) : f ≠ r := by
  obtain ⟨t, rfl⟩ := hr
  intro hfr
  subst hfr
  simp only [List.all_cons, Bool.and_eq_true] at hf
  exact absurd hf.1 (by decide)

/-- Dict keys with a binding occur among the mapped keys. -/
theorem dict_get_isSome_mem {V : Type} (m : List (List Char × V)) (k : List Char)
    (h : (dict_get m k).isSome = true) : k ∈ m.map Prod.fst := by
  induction m with
  | nil => exact Bool.noConfusion h
  | cons kv r ih =>
    obtain ⟨k0, v0⟩ := kv
    simp only [dict_get] at h
    by_cases hk : k = k0
    · subst hk
      simp only [List.map_cons]
      exact List.mem_cons_self _ _
    · rw [if_neg hk] at h
      simp only [List.map_cons]
      exact List.mem_cons_of_mem _ (ih h)

/-- The initial layer dictionary binds exactly the initial keys, to 1. -/
theorem dict_get_map_one (keys : List (List Char)) (k : List Char) :
    dict_get (keys.map (fun l => (l, (1 : Int)))) k =
      if k ∈ keys then some 1 else none := by
  induction keys with
  | nil => simp [dict_get]
  | cons k0 r ih =>
    simp only [List.map_cons, dict_get]
    by_cases hk : k = k0
    · simp [hk]
    · simp [hk, ih, List.mem_cons]

/-- A fold of `max` over odd integers starting from an odd integer is odd. -/
theorem foldl_max_odd : ∀ (xs : List Int) (x : Int), x % 2 = 1 →
    (∀ z ∈ xs, z % 2 = 1) → (xs.foldl max x) % 2 = 1 := by
  intro xs
  induction xs with
  | nil =>
    intro x hx _
    simpa using hx
  | cons y ys ih =>
    intro x hx hall
    simp only [List.foldl_cons]
    apply ih
    · rcases max_choice x y with h | h <;> rw [h]
      · exact hx
      · exact hall y (by simp)
    · intro z hz
      exact hall z (by simp [hz])

/-- Python `max` of a nonempty list of odd layers is odd. -/
theorem max_list_odd {l : List Int} (hne : l ≠ [])
    (hodd : ∀ x ∈ l, x % 2 = 1) : max_list l % 2 = 1 := by
  match l, hne with
  | x :: xs, _ =>
    simp only [max_list]
    exact foldl_max_odd xs x (hodd x (by simp)) (fun z hz => hodd z (by simp [hz]))

/-- The conclusion label a proof line yields consists of digits. -/
theorem splitFirstLabel_digits (s : List Char) :
    ∀ pre lab after, splitFirstLabel s = some (pre, lab, after) →
      lab.all Char.isDigit = true := by
  induction s with
  | nil =>
    intro pre lab after h
    simp [splitFirstLabel] at h
  | cons c rest ih =>
    intro pre lab after h
    unfold splitFirstLabel at h
    split at h
    · split at h
      · rename_i d1 d2 d3 rest2 hdig
        simp only [Option.some.injEq, Prod.mk.injEq] at h
        obtain ⟨-, hlab, -⟩ := h
        subst hlab
        simp only [Bool.and_eq_true] at hdig
        obtain ⟨⟨h1, h2⟩, h3⟩ := hdig
        simp [h1, h2, h3]
      · rcases Option.map_eq_some'.1 h with ⟨⟨p', l', a'⟩, hrec, heq⟩
        simp only [Prod.mk.injEq] at heq
        obtain ⟨-, hl, -⟩ := heq
        subst hl
        exact ih _ _ _ hrec
    · rcases Option.map_eq_some'.1 h with ⟨⟨p', l', a'⟩, hrec, heq⟩
      simp only [Prod.mk.injEq] at heq
      obtain ⟨-, hl, -⟩ := heq
      subst hl
      exact ih _ _ _ hrec

end VisProof

namespace VisProof

/-- Recording a conclusion label (digits) preserves the loop invariant. -/
theorem base_update_inv {st : ParseState} (inv : Inv st) {concl cp : List Char}
    (hdig : concl.all Char.isDigit = true) : Inv (base_update st concl cp) := by
  unfold base_update
  cases hm : dict_get st.node_layer concl with
  | none =>
    refine ⟨?_, inv.rule_shape, ?_, ?_, ?_, ?_, ?_, ?_⟩
    · intro f hf
      rcases mem_insert_node.1 hf with hf | rfl
      · exact inv.fact_digit f hf
      · exact hdig
    · intro k hk
      rw [dict_get_set] at hk
      by_cases hkc : k = concl
      · exact hkc ▸ insert_node_self
      · rw [if_neg hkc] at hk
        exact insert_node_sub (inv.stmt_keys k hk)
    · intro f hf
      rcases mem_insert_node.1 hf with hf | rfl
      · by_cases hfc : f = concl
        · obtain ⟨v, hv, hvo⟩ := inv.fact_layer f hf
          rw [hfc, hm] at hv
          cases hv
        · obtain ⟨v, hv, hvo⟩ := inv.fact_layer f hf
          exact ⟨v, by rw [dict_get_set, if_neg hfc]; exact hv, hvo⟩
      · exact ⟨1, by rw [dict_get_set, if_pos rfl], by decide⟩
    · intro r hr v hv
      have hne : ¬r = concl := Ne.symm (fact_ne_rule hdig (inv.rule_shape r hr))
      rw [dict_get_set, if_neg hne] at hv
      exact inv.rule_layer r hr v hv
    · intro k v hv
      rw [dict_get_set] at hv
      by_cases hkc : k = concl
      · exact Or.inl (hkc ▸ insert_node_self)
      · rw [if_neg hkc] at hv
        rcases inv.layer_keys k v hv with h | h
        · exact Or.inl (insert_node_sub h)
        · exact Or.inr h
    · intro e he
      rcases inv.edges_shape e he with ⟨h1, h2⟩ | ⟨h1, h2⟩
      · exact Or.inl ⟨insert_node_sub h1, h2⟩
      · exact Or.inr ⟨h1, insert_node_sub h2⟩
    · intro e he hr
      have hne : ¬e.2 = concl := Ne.symm (fact_ne_rule hdig (inv.rule_shape _ hr))
      rw [dict_get_set, if_neg hne]
      exact inv.edge_rule_assigned e he hr
  | some w =>
    refine ⟨?_, inv.rule_shape, ?_, ?_, inv.rule_layer, ?_, ?_, inv.edge_rule_assigned⟩
    · intro f hf
      rcases mem_insert_node.1 hf with hf | rfl
      · exact inv.fact_digit f hf
      · exact hdig
    · intro k hk
      rw [dict_get_set] at hk
      by_cases hkc : k = concl
      · exact hkc ▸ insert_node_self
      · rw [if_neg hkc] at hk
        exact insert_node_sub (inv.stmt_keys k hk)
    · intro f hf
      rcases mem_insert_node.1 hf with hf | rfl
      · exact inv.fact_layer f hf
      · rcases inv.layer_keys f w hm with hc | hc
        · exact inv.fact_layer f hc
        · exact absurd rfl (fact_ne_rule hdig (inv.rule_shape f hc))
    · intro k v hv
      rcases inv.layer_keys k v hv with h | h
      · exact Or.inl (insert_node_sub h)
      · exact Or.inr h
    · intro e he
      rcases inv.edges_shape e he with ⟨h1, h2⟩ | ⟨h1, h2⟩
      · exact Or.inl ⟨insert_node_sub h1, h2⟩
      · exact Or.inr ⟨h1, insert_node_sub h2⟩

/-- Registering a fresh rule node (no layer, no edges) preserves the loop
invariant. -/
theorem add_rule_inv {st : ParseState} (inv : Inv st) (rn : List Char)
    (hshape : ∃ t, rn = 'r' :: t) :
    Inv { st with rule_nodes := insert_node st.rule_nodes rn } := by
  refine ⟨inv.fact_digit, ?_, inv.stmt_keys, inv.fact_layer, ?_, ?_, ?_, ?_⟩
  · intro r hr
    rcases mem_insert_node.1 hr with h | heq
    · exact inv.rule_shape r h
    · exact heq ▸ hshape
  · intro r hr v hv
    rcases mem_insert_node.1 hr with h | heq
    · exact inv.rule_layer r h v hv
    · rcases inv.layer_keys r v hv with h | h
      · exact absurd heq (fact_ne_rule (inv.fact_digit r h) hshape)
      · exact inv.rule_layer r h v hv
  · intro k v hv
    rcases inv.layer_keys k v hv with h | h
    · exact Or.inl h
    · exact Or.inr (insert_node_sub h)
  · intro e he
    rcases inv.edges_shape e he with ⟨h1, h2⟩ | ⟨h1, h2⟩
    · exact Or.inl ⟨h1, insert_node_sub h2⟩
    · exact Or.inr ⟨insert_node_sub h1, h2⟩
  · intro e he hr
    rcases mem_insert_node.1 hr with h | heq
    · exact inv.edge_rule_assigned e he h
    · rcases inv.edges_shape e he with ⟨h1, h2⟩ | ⟨h1, h2⟩
      · exact inv.edge_rule_assigned e he h2
      · exact absurd heq (fact_ne_rule (inv.fact_digit _ h2) hshape)

/-- Layer assignment and edge creation for a line with valid premises
preserve the loop invariant. -/
theorem finish_update_inv {st : ParseState} (inv : Inv st) {concl rn : List Char}
    (hdig : concl.all Char.isDigit = true) (hconcl : concl ∈ st.fact_nodes)
    (hshape : ∃ t, rn = 'r' :: t) (hrn : rn ∈ st.rule_nodes)
    {valid : List (List Char)} (hvne : valid ≠ [])
    (hvfact : ∀ p ∈ valid, p ∈ st.fact_nodes) :
    Inv (finish_update st concl rn valid) := by
  have hodd : ∀ x ∈ valid.map (fun p => (dict_get st.node_layer p).getD 0), x % 2 = 1 := by
    intro x hx
    rcases List.mem_map.1 hx with ⟨p, hp, rfl⟩
    obtain ⟨v, hv, hvo⟩ := inv.fact_layer p (hvfact p hp)
    rw [hv]
    exact hvo
  have hmapne : valid.map (fun p => (dict_get st.node_layer p).getD 0) ≠ [] := by
    intro hcon
    exact hvne (List.map_eq_nil_iff.1 hcon)
  have hmx := max_list_odd hmapne hodd
  have hcne : ¬concl = rn := fact_ne_rule hdig hshape
  show Inv { st with
    node_layer := dict_set
      (dict_set st.node_layer rn
        (max_list (valid.map fun p => (dict_get st.node_layer p).getD 0) + 1)) concl
      (max_list (valid.map fun p => (dict_get st.node_layer p).getD 0) + 1 + 1),
    edges := st.edges ++ valid.map (fun p => (p, rn)) ++ [(rn, concl)] }
  generalize hRL : max_list (valid.map fun p => (dict_get st.node_layer p).getD 0) + 1 = RL
  have hrle : RL % 2 = 0 := by omega
  have hcle : (RL + 1) % 2 = 1 := by omega
  refine ⟨inv.fact_digit, inv.rule_shape, inv.stmt_keys, ?_, ?_, ?_, ?_, ?_⟩
  · intro f hf
    by_cases hfc : f = concl
    · exact ⟨RL + 1, by rw [dict_get_set, if_pos hfc], hcle⟩
    · have hfrn : ¬f = rn := fact_ne_rule (inv.fact_digit f hf) hshape
      obtain ⟨v, hv, hvo⟩ := inv.fact_layer f hf
      exact ⟨v, by rw [dict_get_set, if_neg hfc, dict_get_set, if_neg hfrn]; exact hv, hvo⟩
  · intro r hr v hv
    have hrc : ¬r = concl := Ne.symm (fact_ne_rule hdig (inv.rule_shape r hr))
    rw [dict_get_set, if_neg hrc, dict_get_set] at hv
    by_cases hrrn : r = rn
    · rw [if_pos hrrn] at hv
      obtain rfl := Option.some_inj.1 hv
      exact hrle
    · rw [if_neg hrrn] at hv
      exact inv.rule_layer r hr v hv
  · intro k v hv
    rw [dict_get_set] at hv
    by_cases hkc : k = concl
    · exact Or.inl (hkc ▸ hconcl)
    · rw [if_neg hkc, dict_get_set] at hv
      by_cases hkr : k = rn
      · exact Or.inr (hkr ▸ hrn)
      · rw [if_neg hkr] at hv
        exact inv.layer_keys k v hv
  · intro e he
    rcases List.mem_append.1 he with he | he
    · rcases List.mem_append.1 he with he | he
      · exact inv.edges_shape e he
      · rcases List.mem_map.1 he with ⟨p, hp, rfl⟩
        exact Or.inl ⟨hvfact p hp, hrn⟩
    · have : e = (rn, concl) := by simpa using he
      subst this
      exact Or.inr ⟨hrn, hconcl⟩
  · intro e he hr2
    have h2c : ¬e.2 = concl := Ne.symm (fact_ne_rule hdig (inv.rule_shape _ hr2))
    rw [dict_get_set, if_neg h2c, dict_get_set]
    by_cases h2r : e.2 = rn
    · rw [if_pos h2r]
      rfl
    · rw [if_neg h2r]
      rcases List.mem_append.1 he with he | he
      · rcases List.mem_append.1 he with he | he
        · exact inv.edge_rule_assigned e he hr2
        · rcases List.mem_map.1 he with ⟨p, hp, rfl⟩
          exact absurd rfl h2r
      · have : e = (rn, concl) := by simpa using he
        subst this
        exact absurd rfl h2c

end VisProof

namespace VisProof

/-- One loop iteration preserves the invariant, whatever the line parses to. -/
theorem process_line_inv (st : ParseState) (line : List Char) (inv : Inv st) :
    Inv (process_line st line) := by
  unfold process_line
  cases hsp : splitFirstLabel line with
  | none => exact inv
  | some triple =>
    obtain ⟨concl_part, concl, after⟩ := triple
    have hdig := splitFirstLabel_digits line _ _ _ hsp
    have inv1 : Inv (base_update st concl concl_part) := base_update_inv inv hdig
    dsimp only
    split_ifs with h1 h2
    · exact inv1
    · exact add_rule_inv inv1 _ ⟨_, rfl⟩
    · have inv2 : Inv { base_update st concl concl_part with
          rule_nodes := insert_node st.rule_nodes
            (rule_node_of st.rule_nodes ((strip after).takeWhile isWordChar)) } :=
        add_rule_inv inv1 _ ⟨_, rfl⟩
      apply finish_update_inv inv2 hdig
      · exact insert_node_self
      · exact ⟨_, rfl⟩
      · exact insert_node_self
      · intro hcon
        rw [hcon] at h2
        exact h2 rfl
      · intro p hp
        exact inv1.stmt_keys p (List.mem_filter.1 hp).2

end VisProof

namespace VisProof

/-- Forcing a list of fact premises to a fixed odd layer keeps fact layers
odd and leaves every rule node's binding untouched. -/
theorem set_premises_A {st : ParseState} (inv : Inv st) (tv : Int) (htv : tv % 2 = 1) :
    ∀ (ps : List (List Char)), (∀ p ∈ ps, p ∈ st.fact_nodes) →
    ∀ nl, (∀ f ∈ st.fact_nodes, ∃ v, dict_get nl f = some v ∧ v % 2 = 1) →
      (∀ r ∈ st.rule_nodes, dict_get nl r = dict_get st.node_layer r) →
    (∀ f ∈ st.fact_nodes, ∃ v,
        dict_get (ps.foldl (fun nl2 p => dict_set nl2 p tv) nl) f = some v ∧ v % 2 = 1) ∧
    (∀ r ∈ st.rule_nodes,
        dict_get (ps.foldl (fun nl2 p => dict_set nl2 p tv) nl) r =
          dict_get st.node_layer r) := by
  intro ps
  induction ps with
  | nil =>
    intro _ nl h1 h2
    exact ⟨h1, h2⟩
  | cons p rest ih =>
    intro hps nl h1 h2
    rw [List.foldl_cons]
    apply ih (fun q hq => hps q (List.mem_cons_of_mem _ hq))
    · intro f hf
      by_cases hfp : f = p
      · exact ⟨tv, by rw [dict_get_set, if_pos hfp], htv⟩
      · obtain ⟨v, hv, hvo⟩ := h1 f hf
        exact ⟨v, by rw [dict_get_set, if_neg hfp]; exact hv, hvo⟩
    · intro r hr
      have hrp : ¬r = p :=
        Ne.symm (fact_ne_rule (inv.fact_digit p (hps p (List.mem_cons_self _ _)))
          (inv.rule_shape r hr))
      rw [dict_get_set, if_neg hrp]
      exact h2 r hr

/-- One `adjust_node_layers` iteration preserves odd fact layers and rule
bindings. -/
theorem adjust_one {st : ParseState} (inv : Inv st) (rn : List Char)
    (hrn : rn ∈ st.rule_nodes) (nl : List (List Char × Int))
    (hA1 : ∀ f ∈ st.fact_nodes, ∃ v, dict_get nl f = some v ∧ v % 2 = 1)
    (hA2 : ∀ r ∈ st.rule_nodes, dict_get nl r = dict_get st.node_layer r) :
    (∀ f ∈ st.fact_nodes, ∃ v,
        dict_get (adjust_node_layers [rn] st.edges nl) f = some v ∧ v % 2 = 1) ∧
    (∀ r ∈ st.rule_nodes,
        dict_get (adjust_node_layers [rn] st.edges nl) r = dict_get st.node_layer r) := by
  unfold adjust_node_layers
  rw [List.foldl_cons, List.foldl_nil]
  by_cases hpe : ((st.edges.filter (fun e => e.2 == rn)).map Prod.fst).isEmpty
  · rw [if_pos hpe]
    exact ⟨hA1, hA2⟩
  · rw [if_neg hpe]
    obtain ⟨p0, hp0⟩ := List.exists_mem_of_ne_nil
      ((st.edges.filter (fun e => e.2 == rn)).map Prod.fst)
      (fun hh => hpe (by rw [hh]; rfl))
    obtain ⟨e0, he0f, -⟩ := List.mem_map.1 hp0
    have he0m := List.mem_filter.1 he0f
    have he0r : e0.2 = rn := by simpa using he0m.2
    have hsome : (dict_get st.node_layer rn).isSome = true := by
      have h := inv.edge_rule_assigned e0 he0m.1 (by rw [he0r]; exact hrn)
      rw [he0r] at h
      exact h
    obtain ⟨v, hv⟩ := Option.isSome_iff_exists.1 hsome
    have hveven := inv.rule_layer rn hrn v hv
    have hnlrn : dict_get nl rn = some v := by rw [hA2 rn hrn, hv]
    rw [hnlrn]
    rw [if_pos (show (some v).getD 0 % 2 = 0 from hveven)]
    have htar : (v - 1) % 2 = 1 := by omega
    have hpfact : ∀ p ∈ (st.edges.filter (fun e => e.2 == rn)).map Prod.fst,
        p ∈ st.fact_nodes := by
      intro p hp
      rcases List.mem_map.1 hp with ⟨e, hef, rfl⟩
      have hm := List.mem_filter.1 hef
      have he2 : e.2 = rn := by simpa using hm.2
      rcases inv.edges_shape e hm.1 with ⟨h1, h2⟩ | ⟨h1, h2⟩
      · exact h1
      · exact absurd he2 (fact_ne_rule (inv.fact_digit _ h2) (inv.rule_shape rn hrn))
    exact set_premises_A inv _ htar _ hpfact nl hA1 hA2

/-- Folding `adjust_node_layers` over any sublist of the rule nodes
preserves odd fact layers and rule bindings. -/
theorem adjust_A {st : ParseState} (inv : Inv st) :
    ∀ (rl : List (List Char)), (∀ r ∈ rl, r ∈ st.rule_nodes) →
    ∀ nl, (∀ f ∈ st.fact_nodes, ∃ v, dict_get nl f = some v ∧ v % 2 = 1) →
      (∀ r ∈ st.rule_nodes, dict_get nl r = dict_get st.node_layer r) →
    (∀ f ∈ st.fact_nodes, ∃ v,
        dict_get (adjust_node_layers rl st.edges nl) f = some v ∧ v % 2 = 1) ∧
    (∀ r ∈ st.rule_nodes,
        dict_get (adjust_node_layers rl st.edges nl) r = dict_get st.node_layer r) := by
  intro rl
  induction rl with
  | nil =>
    intro _ nl h1 h2
    exact ⟨h1, h2⟩
  | cons rn rest ih =>
    intro hsub nl h1 h2
    have hstep := adjust_one inv rn (hsub rn (List.mem_cons_self _ _)) nl h1 h2
    have hre : adjust_node_layers (rn :: rest) st.edges nl =
        adjust_node_layers rest st.edges (adjust_node_layers [rn] st.edges nl) := rfl
    rw [hre]
    exact ih (fun r hr => hsub r (List.mem_cons_of_mem _ hr)) _ hstep.1 hstep.2

/-- The loop invariant yields the layered-DAG property of the adjusted
layers. -/
theorem inv_layered {st : ParseState} (inv : Inv st) : LayeredDAG st := by
  obtain ⟨hA1, hA2⟩ := adjust_A inv st.rule_nodes (fun r hr => hr) st.node_layer
    inv.fact_layer (fun r _ => rfl)
  refine ⟨hA1, ?_, ?_, inv.edges_shape⟩
  · intro r hr v hv
    rw [hA2 r hr] at hv
    exact inv.rule_layer r hr v hv
  · intro r hr hedge
    obtain ⟨e, he, herr⟩ := hedge
    have hsome := inv.edge_rule_assigned e he (by rw [herr]; exact hr)
    rw [herr] at hsome
    obtain ⟨v, hv⟩ := Option.isSome_iff_exists.1 hsome
    exact ⟨v, by rw [hA2 r hr]; exact hv, inv.rule_layer r hr v hv⟩

/-- The initial state (initial facts at layer 1, no rules, no edges)
satisfies the loop invariant when the initial labels are digit strings. -/
theorem init_inv (initial : List (List Char × List Char))
    (hkeys : ∀ k ∈ initial.map Prod.fst, k.all Char.isDigit = true) :
    Inv (ParseState.mk initial (initial.map Prod.fst) [] []
      ((initial.map Prod.fst).map (fun l => (l, (1 : Int))))) := by
  refine ⟨hkeys, ?_, ?_, ?_, ?_, ?_, ?_, ?_⟩
  · intro r hr
    exact absurd hr (List.not_mem_nil r)
  · intro k hk
    exact dict_get_isSome_mem initial k hk
  · intro f hf
    refine ⟨1, ?_, by decide⟩
    rw [dict_get_map_one, if_pos hf]
  · intro r hr
    exact absurd hr (List.not_mem_nil r)
  · intro k v hv
    rw [dict_get_map_one] at hv
    by_cases hk : k ∈ initial.map Prod.fst
    · exact Or.inl hk
    · rw [if_neg hk] at hv
      cases hv
  · intro e he
    exact absurd he (List.not_mem_nil e)
  · intro e he
    exact absurd he (List.not_mem_nil e)

/-- The loop invariant is preserved across the whole fold. -/
theorem foldl_inv : ∀ (lines : List (List Char)) (st : ParseState), Inv st →
    Inv (lines.foldl process_line st) := by
  intro lines
  induction lines with
  | nil =>
    intro st inv
    exact inv
  | cons l rest ih =>
    intro st inv
    exact ih _ (process_line_inv st l inv)

end VisProof

/-- C8 (amended): for every input text and every initial fact dictionary
whose labels are digit strings, after `parse_proof_relations` and
`adjust_node_layers` every fact node (initial or derived) carries an odd
layer; every rule node that carries a layer carries an even one, and every
rule node with at least one incoming (premise) edge does carry an even
layer; and every recorded edge goes from a fact node to a rule node or from
a rule node to a fact node.  (A rule node all of whose premise labels were
invalid is registered but assigned no layer, which is the corrected part of
the claim.) -/
theorem vis_proof_layering (llm_output : List Char)
    (initial_stmt_map : List (List Char × List Char))
    (hkeys : ∀ k ∈ initial_stmt_map.map Prod.fst, k.all Char.isDigit = true) :
    match VisProof.parse_proof_relations llm_output initial_stmt_map with
    | none => True
    | some st => VisProof.LayeredDAG st := by
  unfold VisProof.parse_proof_relations
  cases VisProof.proofContent llm_output with
  | none => trivial
  | some content =>
    dsimp only
    exact VisProof.inv_layered
      (VisProof.foldl_inv _ _ (VisProof.init_inv initial_stmt_map hkeys))

/-- Witness for C8's theorem: a concrete one-step proof text; the initial
fact 001 sits at layer 1, the derived fact 002 at layer 3, the rule node at
layer 2, with edges 001 → rule → 002. -/
theorem vis_proof_layering_witness :
    match VisProof.parse_proof_relations ("<proof> b [002] a00 [001] ;</proof>".data)
        [([ '0', '0', '1' ], [ 'c' ])] with
    | none => True
    | some st => VisProof.LayeredDAG st :=
  vis_proof_layering _ _ (by decide)

/-- C8 counterexample: a proof line whose only premise label (999) resolves
to no fact is skipped after its rule node has already been registered, so the
final state contains a rule node bound to no layer at all — refuting the
claim that every rule node is assigned an (even) layer number. -/
theorem vis_proof_rule_node_without_layer :
    (VisProof.parse_proof_relations ("<proof> b [002] a00 [999] ;</proof>".data)
        [([ '0', '0', '1' ], [ 'f' ])]).map
      (fun st => (st.rule_nodes,
        VisProof.dict_get
          (VisProof.adjust_node_layers st.rule_nodes st.edges st.node_layer)
          ['r', '_', 'a', '0', '0', '_', '1'])) =
    some ([['r', '_', 'a', '0', '0', '_', '1']], none) := by
  decide
